import Mathlib

/-!
Verification development for the TalkVault NLP pipeline
(`nlp/src/talkvault_nlp/{pii_redactor,summarizer,action_extractor}.py`).

The Python code is embedded shallowly:

* Python `re` patterns are translated into an explicit regular-expression
  syntax `Re` together with a backtracking matcher (`Re.runs`) that returns
  the list of all matches at a position in Python's backtracking priority
  order (alternatives left to right, greedy quantifiers longest first).
  All patterns in the source are compiled with `re.IGNORECASE`, so literal
  matching is case-insensitive and letter classes cover both cases.
  `\b` is the word-boundary assertion over `[A-Za-z0-9_]` (the inputs of
  interest are ASCII).
* `re.sub` is `subPattern` (leftmost non-overlapping matches, scanning the
  original string), `re.search` is `reSearch` (first position, in priority
  order, with the single used capture group), `re.findall` on an escaped
  literal is `countOccCI`.
* Python strings are `String`/`List Char`; `str.strip`, `str.split`,
  `re.split(r'[.!?]+', ·)` are `pyStrip`, `splitWs`, `splitPunct`.
* The spaCy capability (`self.nlp`) and `dateparser.parse` are external
  collaborators: functions taking the segmentation result, respectively a
  parameter `parser : String → Option PDate` (`none` models both a `None`
  result and a raised exception, which the source treats identically).
  Where a claim is settled with the capability unavailable, the source's
  deterministic fallback path is the one embedded.
-/

set_option maxRecDepth 65536

namespace TalkVault

/-! ## Basic Python string helpers -/

/-- Python whitespace for `str.strip`, `str.split` and `\s` (ASCII range). -/
def isPySpace (c : Char) : Bool :=
  c = ' ' || c = '\t' || c = '\n' || c = '\r' || c = '\x0b' || c = '\x0c'

/-- Word character for `\b` (`[A-Za-z0-9_]`; ASCII fragment of `\w`). -/
def isWord (c : Char) : Bool :=
  c.isAlphanum || c = '_'

/-- `str.strip()` on a character list. -/
def stripChars (s : List Char) : List Char :=
  ((s.dropWhile isPySpace).reverse.dropWhile isPySpace).reverse

/-- `str.strip()`. -/
def pyStrip (s : String) : String :=
  String.mk (stripChars s.data)

/-- `str.lower()` (ASCII). -/
def pyLower (s : String) : String :=
  String.mk (s.data.map Char.toLower)

/-- Helper for `splitWsChars`: `acc` holds the current word reversed. -/
def splitWsAux : List Char → List Char → List (List Char)
  | [], acc => if acc.isEmpty then [] else [acc.reverse]
  | c :: rest, acc =>
    if isPySpace c then
      if acc.isEmpty then splitWsAux rest []
      else acc.reverse :: splitWsAux rest []
    else splitWsAux rest (c :: acc)

/-- `str.split()` with no argument: split on whitespace runs, no empties. -/
def splitWsChars (s : List Char) : List (List Char) :=
  splitWsAux s []

/-- `str.split()`. -/
def splitWs (s : String) : List String :=
  (splitWsChars s.data).map String.mk

/-- Substring containment, `needle in haystack` for Python strings. -/
def containsSub (haystack needle : List Char) : Bool :=
  match haystack with
  | [] => needle.isEmpty
  | _ :: rest => needle.isPrefixOf haystack || containsSub rest needle

/-- `needle in haystack` on `String`s. -/
def pyContains (haystack needle : String) : Bool :=
  containsSub haystack.data needle.data

/-- Sentence-splitting punctuation of `re.split(r'[.!?]+', text)`. -/
def isPunct (c : Char) : Bool :=
  c = '.' || c = '!' || c = '?'

/-- Helper for `splitPunctChars`: `acc` holds the current piece reversed.
The fuel argument makes the recursion structural (so that it reduces in
the kernel); every step shortens the character list, so `length + 1` fuel
is always enough. -/
def splitPunctAux : Nat → List Char → List Char → List (List Char)
  | 0, _, acc => [acc.reverse]
  | _ + 1, [], acc => [acc.reverse]
  | f + 1, c :: rest, acc =>
    if isPunct c then
      acc.reverse :: splitPunctAux f (rest.dropWhile isPunct) []
    else
      splitPunctAux f rest (c :: acc)

/-- `re.split(r'[.!?]+', text)`: the pieces between maximal runs of
`.`, `!`, `?`, including empty pieces at the ends (as in Python). -/
def splitPunctChars (s : List Char) : List (List Char) :=
  splitPunctAux (s.length + 1) s []

/-- `re.split(r'[.!?]+', text)` on `String`s. -/
def splitPunct (s : String) : List String :=
  (splitPunctChars s.data).map String.mk

/-! ## A backtracking regex engine with Python `re` semantics

`Re` is the abstract syntax of the fragment of Python regular expressions
used by the source. Since every pattern in the source is compiled with
`re.IGNORECASE`, literals match case-insensitively and letter classes are
written as full-alphabet predicates. Capture groups that the source never
reads are written as plain grouping (they do not affect matching). -/

/-- Matcher state: the remaining input, the absolute position, whether the
previous character is a word character (start of string counts as a
non-word), and the capture spans recorded so far. -/
structure RSt where
  rest : List Char
  pos : Nat
  w : Bool
  caps : List (Nat × Nat)
deriving Repr, DecidableEq

/-- Regular-expression syntax.
`lit l` is a case-insensitive literal; `cls p lo hi` is a character class
`p` repeated greedily between `lo` and `hi` times (`hi = none` means
unbounded, i.e. `*`, `+`, `{lo,}`); `wb` is `\b`; `opt` is greedy `?`;
`alt` tries the left alternative first; `grp` records a capture span. -/
inductive Re where
  | lit : List Char → Re
  | cls : (Char → Bool) → Nat → Option Nat → Re
  | wb : Re
  | opt : Re → Re
  | alt : Re → Re → Re
  | seq : Re → Re → Re
  | grp : Re → Re

/-- Case-insensitive consumption of a literal; returns the rest and the
word-character status of the last consumed character. -/
def eatLit : List Char → List Char → Bool → Option (List Char × Bool)
  | [], s, w => some (s, w)
  | _ :: _, [], _ => none
  | a :: l, c :: s, _ =>
    if c.toLower = a.toLower then eatLit l s (isWord c) else none

/-- Length of the maximal prefix of `s` satisfying `p`, capped at `hi`. -/
def clsMaxRun (p : Char → Bool) (s : List Char) (hi : Option Nat) : Nat :=
  match hi with
  | none => (s.takeWhile p).length
  | some k => min k (s.takeWhile p).length

/-- Advance a state by consuming exactly `n` characters. -/
def RSt.consume (st : RSt) (n : Nat) : RSt :=
  { st with
    rest := st.rest.drop n
    pos := st.pos + n
    w := match (st.rest.take n).getLast? with
         | some c => isWord c
         | none => st.w }

/-- Candidate lengths `[m, m-1, ..., lo]` in greedy (descending) order. -/
def descRange (lo m : Nat) : List Nat :=
  (List.range (m + 1 - lo)).map (fun i => m - i)

/-- All ways the pattern can match starting at `st`, as resulting states in
Python's backtracking priority order: alternatives left to right, greedy
repetition longest first. The head of the list is the match Python's
engine produces. -/
def Re.runs : Re → RSt → List RSt
  | .lit l, st =>
    match eatLit l st.rest st.w with
    | some (r, w') => [{ st with rest := r, pos := st.pos + l.length, w := w' }]
    | none => []
  | .cls p lo hi, st =>
    let m := clsMaxRun p st.rest hi
    if lo ≤ m then (descRange lo m).map st.consume else []
  | .wb, st =>
    let nextW := match st.rest.head? with
                 | some c => isWord c
                 | none => false
    if st.w ≠ nextW then [st] else []
  | .opt r, st => r.runs st ++ [st]
  | .alt a b, st => a.runs st ++ b.runs st
  | .seq a b, st => (a.runs st).flatMap b.runs
  | .grp r, st => (r.runs st).map (fun st' => { st' with caps := (st.pos, st'.pos) :: st'.caps })

/-- The match Python's engine produces at this exact position, if any. -/
def Re.firstMatch (re : Re) (st : RSt) : Option RSt :=
  (re.runs st).head?

/-- `re.search` from a given state: the match at the leftmost possible
start position. Returns the start position together with the final state. -/
def searchFromChars (re : Re) : List Char → Nat → Bool → Option (Nat × RSt)
  | s, pos, w =>
    match re.firstMatch ⟨s, pos, w, []⟩ with
    | some st' => some (pos, st')
    | none =>
      match s with
      | [] => none
      | c :: s' => searchFromChars re s' (pos + 1) (isWord c)

/-- `re.search(pattern, text, re.IGNORECASE)`, reduced to the data the
source reads: the full text together with the final engine state. -/
def reSearch (re : Re) (text : String) : Option (Nat × RSt) :=
  searchFromChars re text.data 0 false

/-- `match.group(1)` of a search on `text`: the text of the first capture
span recorded on the successful path. -/
def group1 (text : String) : Option (Nat × RSt) → Option String
  | some (_, st) =>
    match st.caps.head? with
    | some (a, b) => some (String.mk ((text.data.drop a).take (b - a)))
    | none => none
  | none => none

/-- One scan of `re.sub(pattern, repl, s)` over a character list.

Matching proceeds over the original characters (Python finds all
non-overlapping matches left to right against the original string and
assembles the replacements afterwards, so the inserted replacement text is
never rescanned within the same `sub` call). An empty match is replaced
and the scan advances one character, as in Python; the source's patterns
can never match the empty string. -/
def scanSub (re : Re) (repl : List Char) : Nat → List Char → Bool → List Char
  | 0, s, _ => s
  | _ + 1, [], w =>
    match re.firstMatch ⟨[], 0, w, []⟩ with
    | some _ => repl
    | none => []
  | f + 1, c :: s, w =>
    match re.firstMatch ⟨c :: s, 0, w, []⟩ with
    | some st' =>
      match st'.pos with
      | 0 => repl ++ c :: scanSub re repl f s (isWord c)
      | n + 1 => repl ++ scanSub re repl f ((c :: s).drop (n + 1)) st'.w
    | none => c :: scanSub re repl f s (isWord c)

/-- `re.sub(pattern, repl, s, flags=re.IGNORECASE)`. Every scan step
shortens the list, so `length + 1` fuel is always enough. -/
def subPattern (re : Re) (repl : String) (s : String) : String :=
  String.mk (scanSub re repl.data (s.data.length + 1) s.data false)

/-- The spans `(start, length)` that `re.sub` replaces, scanning exactly as
`scanSub` does. -/
def scanSpans (re : Re) : Nat → List Char → Bool → Nat → List (Nat × Nat)
  | 0, _, _, _ => []
  | _ + 1, [], w, pos =>
    match re.firstMatch ⟨[], 0, w, []⟩ with
    | some st' => [(pos, st'.pos)]
    | none => []
  | f + 1, c :: s, w, pos =>
    match re.firstMatch ⟨c :: s, 0, w, []⟩ with
    | some st' =>
      match st'.pos with
      | 0 => (pos, 0) :: scanSpans re f s (isWord c) (pos + 1)
      | n + 1 =>
        (pos, n + 1) :: scanSpans re f ((c :: s).drop (n + 1)) st'.w (pos + n + 1)
    | none => scanSpans re f s (isWord c) (pos + 1)

/-- Match spans of a pattern over a whole string, as `re.sub` would
replace them. -/
def findSpans (re : Re) (s : String) : List (Nat × Nat) :=
  scanSpans re (s.data.length + 1) s.data false 0

/-- Number of non-overlapping, case-insensitive occurrences of a literal:
`len(re.findall(re-escaped literal, s, re.IGNORECASE))`. -/
def countOccCIAux (needle : List Char) : Nat → List Char → Nat
  | 0, _ => 0
  | _ + 1, [] => 0
  | f + 1, c :: s =>
    match eatLit needle (c :: s) false with
    | some _ =>
      match needle with
      | [] => 0
      | _ :: nl => 1 + countOccCIAux needle f (s.drop nl.length)
    | none => countOccCIAux needle f s

/-- See `countOccCIAux`; `length + 1` fuel is always enough. -/
def countOccCI (needle : List Char) (s : List Char) : Nat :=
  countOccCIAux needle (s.length + 1) s

/-! ## PII redactor (`pii_redactor.py`)

The seven detectors of `PIIRedactor.pii_patterns`, in the dict's insertion
order, which Python 3.7+ fixes as the iteration order used by
`redact_pii`. The unused capture groups of the phone pattern are written
as plain grouping. -/

/-- Build a case-insensitive literal from a string. -/
def strLit (s : String) : Re :=
  Re.lit s.data

/-- A single (case-insensitively) literal character. -/
def chr (c : Char) : Re :=
  Re.lit [c]

/-- Exactly `n` repetitions of a class. -/
def clsN (p : Char → Bool) (n : Nat) : Re :=
  Re.cls p n (some n)

/-- `?` on a character class (zero or one, greedy). -/
def optC (p : Char → Bool) : Re :=
  Re.cls p 0 (some 1)

/-- `[A-Za-z0-9._%+-]` (email local part). -/
def emailLocalChar (c : Char) : Bool :=
  c.isAlphanum || c = '.' || c = '_' || c = '%' || c = '+' || c = '-'

/-- `[A-Za-z0-9.-]` (email domain). -/
def emailDomainChar (c : Char) : Bool :=
  c.isAlphanum || c = '.' || c = '-'

/-- `[A-Z|a-z]` under `re.IGNORECASE` (email TLD; the class literally
contains `|`). -/
def emailTldChar (c : Char) : Bool :=
  c.isAlpha || c = '|'

/-- `[-.]`. -/
def dashDot (c : Char) : Bool :=
  c = '-' || c = '.'

/-- `[-\s]` (credit-card separator). -/
def dashSpace (c : Char) : Bool :=
  c = '-' || isPySpace c

/-- `[^\s<>"\{\}|\\^`\[\]]` (URL body character). -/
def urlChar (c : Char) : Bool :=
  !(isPySpace c || c = '<' || c = '>' || c = '"' || c = Char.ofNat 123 ||
    c = Char.ofNat 125 || c = '|' || c = '\\' || c = '^' || c = Char.ofNat 96 ||
    c = '[' || c = ']')

/-- `\b[A-Za-z0-9._%+-]+@[A-Za-z0-9.-]+\.[A-Z|a-z]{2,}\b`. -/
def emailRe : Re :=
  Re.seq Re.wb (Re.seq (Re.cls emailLocalChar 1 none) (Re.seq (chr '@')
    (Re.seq (Re.cls emailDomainChar 1 none) (Re.seq (chr '.')
      (Re.seq (Re.cls emailTldChar 2 none) Re.wb)))))

/-- `\b(?:\+?1[-.]?)?\(?([0-9]{3})\)?[-.]?([0-9]{3})[-.]?([0-9]{4})\b`. -/
def phoneRe : Re :=
  Re.seq Re.wb (Re.seq
    (Re.opt (Re.seq (Re.opt (chr '+')) (Re.seq (chr '1') (optC dashDot))))
    (Re.seq (Re.opt (chr '(')) (Re.seq (clsN Char.isDigit 3)
      (Re.seq (Re.opt (chr ')')) (Re.seq (optC dashDot)
        (Re.seq (clsN Char.isDigit 3) (Re.seq (optC dashDot)
          (Re.seq (clsN Char.isDigit 4) Re.wb))))))))

/-- `\b\d{3}-?\d{2}-?\d{4}\b`. -/
def ssnRe : Re :=
  Re.seq Re.wb (Re.seq (clsN Char.isDigit 3) (Re.seq (Re.opt (chr '-'))
    (Re.seq (clsN Char.isDigit 2) (Re.seq (Re.opt (chr '-'))
      (Re.seq (clsN Char.isDigit 4) Re.wb)))))

/-- `\b(?:\d{4}[-\s]?){3}\d{4}\b`. -/
def creditCardRe : Re :=
  let block := Re.seq (clsN Char.isDigit 4) (optC dashSpace)
  Re.seq Re.wb (Re.seq block (Re.seq block (Re.seq block
    (Re.seq (clsN Char.isDigit 4) Re.wb))))

/-- `\b(?:[0-9]{1,3}\.){3}[0-9]{1,3}\b`. -/
def ipRe : Re :=
  let block := Re.seq (Re.cls Char.isDigit 1 (some 3)) (chr '.')
  Re.seq Re.wb (Re.seq block (Re.seq block (Re.seq block
    (Re.seq (Re.cls Char.isDigit 1 (some 3)) Re.wb))))

/-- `https?://[^\s<>"\{\}|\\^`\[\]]+` (no word-boundary anchors). -/
def urlRe : Re :=
  Re.seq (strLit ("http")) (Re.seq (Re.opt (chr 's'))
    (Re.seq (strLit ("://")) (Re.cls urlChar 1 none)))

/-- `\b\d{5}(?:-\d{4})?\b`. -/
def zipcodeRe : Re :=
  Re.seq Re.wb (Re.seq (clsN Char.isDigit 5)
    (Re.seq (Re.opt (Re.seq (chr '-') (clsN Char.isDigit 4))) Re.wb))

/-- `str.upper()` (ASCII). -/
def pyUpper (s : String) : String :=
  String.mk (s.data.map Char.toUpper)

/-- The placeholder `f'[{pii_type.upper()}_REDACTED]'`. -/
def placeholder (piiType : String) : String :=
  "[" ++ pyUpper piiType ++ "_REDACTED]"

/-- `self.pii_patterns`, in insertion order. -/
def piiPatterns : List (String × Re) :=
  [("email", emailRe), ("phone", phoneRe), ("ssn", ssnRe),
   ("credit_card", creditCardRe), ("ip_address", ipRe), ("url", urlRe),
   ("zipcode", zipcodeRe)]

/-- `PIIRedactor.redact_pii` with the entity-recognition capability
unavailable (`self.nlp is None`), i.e. the pattern phase alone: blank or
empty text is returned unchanged, otherwise the seven detectors are
applied sequentially, each replacing every match in the
progressively-redacted string. -/
def redactPII (text : String) : String :=
  if text = "" || pyStrip text = "" then text
  else piiPatterns.foldl (fun acc p => subPattern p.2 (placeholder p.1) acc) text

/-- The NER labels `self.sensitive_entities`. -/
def sensitiveEntities : List String :=
  ["PERSON", "ORG", "GPE", "LOC"]

/-- `RedactionStats`: the dict returned by `get_redaction_stats`; `types`
is the `redaction_types` dict as an insertion-ordered association list. -/
structure RedactionStats where
  total : Nat
  types : List (String × Nat)
  origLen : Nat
  redLen : Nat
deriving Repr, DecidableEq

/-- `PIIRedactor.get_redaction_stats`: counts each placeholder form in the
redacted text (case-insensitively, non-overlapping), keeping only nonzero
counts, then sums them for `total_redactions` and records both lengths. -/
def getRedactionStats (original redacted : String) : RedactionStats :=
  let patCounts := piiPatterns.map
    (fun p => (p.1, countOccCI (placeholder p.1).data redacted.data))
  let entCounts := sensitiveEntities.map
    (fun e => (pyLower e, countOccCI ("[" ++ e ++ "_REDACTED]").data redacted.data))
  let counts := (patCounts ++ entCounts).filter (fun p => p.2 > 0)
  { total := (counts.map Prod.snd).sum
    types := counts
    origLen := original.length
    redLen := redacted.length }

/-! ## Meeting summarizer (`summarizer.py`)

The model-backed path operates on the sentence sequence produced by the
external Segmentation Service (spaCy `doc.sents`); it is embedded as a
function of that sequence. The fallback path is fully concrete.

The float constants `0.3` and `1.2` of the source are embedded as the
exact rationals `3/10` and `6/5`; for sentence counts and word counts far
below `2^50` the float comparisons of the source agree with the exact
rational ones, the quantities compared being at least `1/10` apart
whenever they differ. -/

/-- The kept sentences of the model-backed path:
`[sent.text.strip() for sent in doc.sents if len(sent.text.strip()) > 20]`. -/
def qualifyingModel (sents : List String) : List String :=
  sents.filterMap (fun t =>
    let u := pyStrip t
    if u.length > 20 then some u else none)

/-- Position-biased word-count scores: word count, multiplied by `1.2`
when `i < len(sentences) * 0.3`. -/
def scoreSentences (sents : List String) : List (String × ℚ) :=
  sents.enum.map (fun p =>
    let base : ℚ := (splitWs p.2).length
    (p.2, if (p.1 : ℚ) < (sents.length : ℚ) * (3 / 10) then base * (6 / 5) else base))

/-- Stable descending insertion for `list.sort(key=..., reverse=True)`:
the new element is placed before the first element whose key is not
greater, so elements with equal keys keep their input order. -/
def insertDesc (key : α → ℚ) (x : α) : List α → List α
  | [] => [x]
  | y :: ys => if key x < key y then y :: insertDesc key x ys else x :: y :: ys

/-- Python's `list.sort(key=..., reverse=True)`: a stable sort by
descending key. -/
def pySortDesc (key : α → ℚ) (l : List α) : List α :=
  l.foldr (insertDesc key) []

/-- `MeetingSummarizer.summarize`, model-backed path, after segmentation:
keep sentences longer than 20 characters; if at most `maxS` remain return
them space-joined in order, otherwise score, stably sort by score
descending, take the top `maxS` and space-join. -/
def summarizeModel (sents : List String) (maxS : Nat) : String :=
  let sentences := qualifyingModel sents
  if sentences.length ≤ maxS then String.intercalate (" ") sentences
  else
    let scored := scoreSentences sentences
    let top := ((pySortDesc Prod.snd scored).take maxS).map Prod.fst
    String.intercalate (" ") top

/-- The kept sentences of `_simple_summarize`: punctuation-split pieces,
stripped, longer than 20 characters. -/
def qualifyingSimple (text : String) : List String :=
  ((splitPunct text).map pyStrip).filter (fun s => s.length > 20)

/-- `MeetingSummarizer._simple_summarize`: if at most `maxS` sentences
qualify, join them with `". "` and a trailing period; otherwise the first
sentence, then (only when `maxS > 2`) up to `maxS - 2` sentences from the
middle third, then (only when `maxS > 1`) the last sentence. -/
def simpleSummarize (text : String) (maxS : Nat) : String :=
  let sentences := qualifyingSimple text
  if sentences.length ≤ maxS then String.intercalate (". ") sentences ++ "."
  else
    let n := sentences.length
    let middle := (sentences.drop (n / 3)).take (2 * n / 3 - n / 3)
    let selected := [sentences.headD ""]
      ++ (if maxS > 2 then middle.take (maxS - 2) else [])
      ++ (if maxS > 1 then [sentences.getLastD ""] else [])
    String.intercalate (". ") selected ++ "."

/-- `MeetingSummarizer.summarize`: blank input returns the sentinel;
otherwise the model-backed path runs on the segmentation capability's
output when it is available (`seg = some f`), and `_simple_summarize`
otherwise. (The source also falls back on an exception inside the model
path; the embedding's model path is total, so that branch is vacuous.) -/
def summarize (seg : Option (String → List String)) (text : String) (maxS : Nat) : String :=
  if text = "" || pyStrip text = "" then "No content to summarize"
  else
    match seg with
    | some f => summarizeModel (f text) maxS
    | none => simpleSummarize text maxS

/-! ## Action item extractor (`action_extractor.py`)

`dateparser.parse` is an external collaborator: it is a parameter
`parser : String → Option PDate`, where `none` covers both a `None`
result and a raised exception (the source's bare `except` treats them
identically, keeping the raw phrase). Sentence segmentation is the
source's fallback splitter (`self.nlp is None`). -/

/-- A calendar date as produced by a successful `dateparser.parse`. -/
structure PDate where
  year : Nat
  month : Nat
  day : Nat
deriving Repr, DecidableEq

/-- Decimal string of `n`, zero-padded to `k` digits. -/
def padNum (k n : Nat) : String :=
  let s := toString n
  String.mk (List.replicate (k - s.length) '0') ++ s

/-- `parsed_date.strftime('%Y-%m-%d')`. -/
def isoFmt (d : PDate) : String :=
  padNum 4 d.year ++ "-" ++ padNum 2 d.month ++ "-" ++ padNum 2 d.day

/-- `self.action_keywords`. -/
def actionKeywords : List String :=
  ["will", "shall", "should", "need to", "must", "have to", "going to",
   "action item", "todo", "task", "follow up", "deliverable", "deadline",
   "assign", "responsible", "owner", "due", "complete", "finish"]

/-- `_split_sentences`, fallback branch: punctuation-split pieces,
stripped, longer than 10 characters. -/
def splitSentencesFallback (text : String) : List String :=
  ((splitPunct text).map pyStrip).filter (fun s => s.length > 10)

/-- `_contains_action_keywords`: case-insensitive substring test against
the keyword list. -/
def containsActionKeyword (sentence : String) : Bool :=
  actionKeywords.any (fun k => pyContains (pyLower sentence) k)

/-- `\s+`. -/
def wsPlus : Re :=
  Re.cls isPySpace 1 none

/-- `\s*`. -/
def wsStar : Re :=
  Re.cls isPySpace 0 none

/-- `[A-Z][a-z]+(?:\s+[A-Z][a-z]+)?` under `re.IGNORECASE` (the
capitalized-name heuristic; with the flag both classes cover all
letters). -/
def nameRe : Re :=
  Re.seq (clsN Char.isAlpha 1) (Re.seq (Re.cls Char.isAlpha 1 none)
    (Re.opt (Re.seq wsPlus (Re.seq (clsN Char.isAlpha 1) (Re.cls Char.isAlpha 1 none)))))

/-- `(?:assigned to|assign to|responsible)\s+([A-Z][a-z]+(?:\s+[A-Z][a-z]+)?)`. -/
def assigneeRe1 : Re :=
  Re.seq (Re.alt (strLit ("assigned to")) (Re.alt (strLit ("assign to")) (strLit ("responsible"))))
    (Re.seq wsPlus (Re.grp nameRe))

/-- `([A-Z][a-z]+(?:\s+[A-Z][a-z]+)?)\s+(?:will|shall|should)`. -/
def assigneeRe2 : Re :=
  Re.seq (Re.grp nameRe)
    (Re.seq wsPlus (Re.alt (strLit ("will")) (Re.alt (strLit ("shall")) (strLit ("should")))))

/-- `@([A-Za-z]+(?:\s+[A-Za-z]+)?)`. -/
def assigneeRe3 : Re :=
  Re.seq (chr '@') (Re.grp (Re.seq (Re.cls Char.isAlpha 1 none)
    (Re.opt (Re.seq wsPlus (Re.cls Char.isAlpha 1 none)))))

/-- `_extract_assignee`: the three patterns in fixed order, first match
wins, `match.group(1).strip()`. -/
def extractAssignee (sentence : String) : Option String :=
  match group1 sentence (reSearch assigneeRe1 sentence) with
  | some g => some (pyStrip g)
  | none =>
    match group1 sentence (reSearch assigneeRe2 sentence) with
    | some g => some (pyStrip g)
    | none =>
      match group1 sentence (reSearch assigneeRe3 sentence) with
      | some g => some (pyStrip g)
      | none => none

/-- `[^.\n,]`. -/
def dueChar (c : Char) : Bool :=
  !(c = '.' || c = '\n' || c = ',')

/-- `[:\-]`. -/
def colonDash (c : Char) : Bool :=
  c = ':' || c = '-'

/-- `due\s+(?:by|on)?\s*([^.\n,]{5,30})`. -/
def dueRe1 : Re :=
  Re.seq (strLit ("due")) (Re.seq wsPlus (Re.seq (Re.opt (Re.alt (strLit ("by")) (strLit ("on"))))
    (Re.seq wsStar (Re.grp (Re.cls dueChar 5 (some 30))))))

/-- `deadline[:\-]?\s*([^.\n,]{5,30})`. -/
def dueRe2 : Re :=
  Re.seq (strLit ("deadline")) (Re.seq (optC colonDash)
    (Re.seq wsStar (Re.grp (Re.cls dueChar 5 (some 30)))))

/-- `by\s+([A-Z][a-z]+\s+\d{1,2}(?:st|nd|rd|th)?)`. -/
def dueRe3 : Re :=
  Re.seq (strLit ("by")) (Re.seq wsPlus (Re.grp (Re.seq (clsN Char.isAlpha 1)
    (Re.seq (Re.cls Char.isAlpha 1 none) (Re.seq wsPlus (Re.seq (Re.cls Char.isDigit 1 (some 2))
      (Re.opt (Re.alt (strLit ("st")) (Re.alt (strLit ("nd"))
        (Re.alt (strLit ("rd")) (strLit ("th"))))))))))))

/-- `on\s+(\d{1,2}/\d{1,2}(?:/\d{2,4})?)`. -/
def dueRe4 : Re :=
  Re.seq (strLit ("on")) (Re.seq wsPlus (Re.grp (Re.seq (Re.cls Char.isDigit 1 (some 2))
    (Re.seq (chr '/') (Re.seq (Re.cls Char.isDigit 1 (some 2))
      (Re.opt (Re.seq (chr '/') (Re.cls Char.isDigit 2 (some 4)))))))))

/-- `(next\s+(?:week|month|friday|monday|tuesday|wednesday|thursday|saturday|sunday))`. -/
def dueRe5 : Re :=
  Re.grp (Re.seq (strLit ("next")) (Re.seq wsPlus
    (Re.alt (strLit ("week")) (Re.alt (strLit ("month")) (Re.alt (strLit ("friday"))
      (Re.alt (strLit ("monday")) (Re.alt (strLit ("tuesday")) (Re.alt (strLit ("wednesday"))
        (Re.alt (strLit ("thursday")) (Re.alt (strLit ("saturday")) (strLit ("sunday"))))))))))))

/-- `(tomorrow|today|this\s+week|next\s+week)`. -/
def dueRe6 : Re :=
  Re.grp (Re.alt (strLit ("tomorrow")) (Re.alt (strLit ("today"))
    (Re.alt (Re.seq (strLit ("this")) (Re.seq wsPlus (strLit ("week"))))
      (Re.seq (strLit ("next")) (Re.seq wsPlus (strLit ("week")))))))

/-- The due-date patterns in the order `_extract_due_date` tries them. -/
def duePatterns : List Re :=
  [dueRe1, dueRe2, dueRe3, dueRe4, dueRe5, dueRe6]

/-- The first due-date pattern match: `match.group(1).strip()` of the
first pattern in the fixed order that matches the sentence. -/
def findDueMatch (sentence : String) : Option String :=
  (duePatterns.filterMap (fun re => group1 sentence (reSearch re sentence))).head?.map pyStrip

/-- `_extract_due_date`: on a match, attempt natural-language date
parsing; a parsed date is rendered as ISO-8601, and on failure (a `None`
result or an exception) the raw matched phrase is returned verbatim. -/
def extractDueDate (parser : String → Option PDate) (sentence : String) : Option String :=
  (findDueMatch sentence).map (fun phrase =>
    match parser phrase with
    | some d => isoFmt d
    | none => phrase)

/-- `_determine_priority`. -/
def determinePriority (sentence : String) : String :=
  let s := pyLower sentence
  if ["urgent", "asap", "immediately", "critical", "important"].any (fun w => pyContains s w)
  then "high"
  else if ["when possible", "eventually", "low priority"].any (fun w => pyContains s w)
  then "low"
  else "medium"

/-- `description.endswith(('.', '!', '?'))`: the suffixes are single
characters, so this is a test on the last character. -/
def endsWithPunct (d : String) : Bool :=
  match d.data.getLast? with
  | some c => c = '.' || c = '!' || c = '?'
  | none => false

/-- `_clean_description`: collapse whitespace, capitalize the first
letter, terminate with punctuation. -/
def cleanDescription (description : String) : String :=
  let d := String.intercalate (" ") (splitWs description)
  let d := match d.data with
    | [] => d
    | c :: cs => String.mk (c.toUpper :: cs)
  if d ≠ "" && !endsWithPunct d then d ++ "." else d

/-- `ActionItem` as built by `_extract_action_from_sentence`. -/
structure ActionItem where
  id : Nat
  description : String
  assignedTo : Option String
  dueDate : Option String
  priority : String
  status : String
  extractedFrom : String
deriving Repr, DecidableEq

/-- `_extract_action_from_sentence` for the sentence at index `i`. -/
def extractAction (parser : String → Option PDate) (sentence : String) (i : Nat) : ActionItem :=
  { id := i + 1
    description := cleanDescription (pyStrip sentence)
    assignedTo := extractAssignee sentence
    dueDate := extractDueDate parser sentence
    priority := determinePriority sentence
    status := "pending"
    extractedFrom := "Sentence " ++ toString (i + 1) }

/-- The lowercased word set of a description:
`set(desc.lower().split())`. -/
def wordSet (desc : String) : Finset String :=
  (splitWs (pyLower desc)).toFinset

/-- The word-overlap ratio computed inside `_are_similar`:
`len(intersection) / len(union) if union else 0`, over the lowercased word
sets of the two descriptions (this is the Jaccard similarity). -/
def jaccardSim (d1 d2 : String) : ℚ :=
  let w1 := wordSet d1
  let w2 := wordSet d2
  if w1 ∪ w2 = ∅ then 0 else ((w1 ∩ w2).card : ℚ) / ((w1 ∪ w2).card : ℚ)

/-- `_are_similar` with the default threshold `0.7` (exactly `7/10`; the
word-overlap ratio has denominator the union's size, so the float
comparison of the source agrees with the exact rational one). -/
def areSimilar (d1 d2 : String) : Bool :=
  if wordSet d1 = ∅ || wordSet d2 = ∅ then false
  else jaccardSim d1 d2 ≥ 7 / 10

/-- `_deduplicate_actions`: keep each action unless it is similar to an
already-kept one, in extraction order. -/
def dedupActions (actions : List ActionItem) : List ActionItem :=
  if actions.length ≤ 1 then actions
  else actions.foldl (fun acc a =>
    if acc.any (fun e => areSimilar a.description e.description) then acc
    else acc ++ [a]) []

/-- `ActionExtractor.extract_actions` with the segmentation capability
unavailable (fallback sentence splitter): blank input yields `[]`;
keyword-bearing sentences (indexed over the whole sentence list) become
`ActionItem`s, which are then deduplicated. -/
def extractActions (parser : String → Option PDate) (text : String) : List ActionItem :=
  if text = "" || pyStrip text = "" then []
  else
    let sentences := splitSentencesFallback text
    let candidates := sentences.enum.filterMap (fun p =>
      if containsActionKeyword p.2 then some (extractAction parser p.2 p.1) else none)
    dedupActions candidates

/-! ## Character-set observations about the detectors (for C7)

`ReAllowed P re` says every character a match of `re` consumes satisfies
`P`; `ReNeeds Q re` says every match of `re` consumes at least one
character satisfying `Q`. Both are read off the pattern syntax. -/

/-- The literal token `t` occurs (exactly) at offset `q` of `s`. -/
def occursAt (t s : List Char) (q : Nat) : Prop :=
  (s.drop q).take t.length = t

instance (t s : List Char) (q : Nat) : Decidable (occursAt t s q) :=
  inferInstanceAs (Decidable ((s.drop q).take t.length = t))

/-- Every character consumed by a match of the pattern satisfies `P`. -/
def ReAllowed (P : Char → Prop) : Re → Prop
  | .lit l => ∀ a ∈ l, ∀ c : Char, c.toLower = a.toLower → P c
  | .cls p _ _ => ∀ c, p c = true → P c
  | .wb => True
  | .opt r => ReAllowed P r
  | .alt a b => ReAllowed P a ∧ ReAllowed P b
  | .seq a b => ReAllowed P a ∧ ReAllowed P b
  | .grp r => ReAllowed P r

/-- Every match of the pattern consumes some character satisfying `Q`. -/
def ReNeeds (Q : Char → Prop) : Re → Prop
  | .lit l => ∃ a ∈ l, ∀ c : Char, c.toLower = a.toLower → Q c
  | .cls p lo _ => 1 ≤ lo ∧ ∀ c, p c = true → Q c
  | .wb => False
  | .opt _ => False
  | .alt a b => ReNeeds Q a ∧ ReNeeds Q b
  | .seq a b => ReNeeds Q a ∨ ReNeeds Q b
  | .grp r => ReNeeds Q r

/-- Characters a phone-pattern match can consume: digits and the
separators `-. +1()` (all fixed by `toLower`; the comparisons are stated
through `toLower` to mirror the case-insensitive literal matching). -/
def phoneAllowed (c : Char) : Bool :=
  c.isDigit || dashDot c || c.toLower = Char.toLower '+' ||
    c.toLower = Char.toLower '1' || c.toLower = Char.toLower '(' ||
    c.toLower = Char.toLower ')'

/-- Characters an SSN-pattern match can consume. -/
def ssnAllowed (c : Char) : Bool :=
  c.isDigit || c.toLower = Char.toLower '-'

/-- Characters a credit-card-pattern match can consume. -/
def ccAllowed (c : Char) : Bool :=
  c.isDigit || dashSpace c

/-- Characters an IP-pattern match can consume. -/
def ipAllowed (c : Char) : Bool :=
  c.isDigit || c.toLower = Char.toLower '.'

/-- Characters a zipcode-pattern match can consume. -/
def zipAllowed (c : Char) : Bool :=
  c.isDigit || c.toLower = Char.toLower '-'

/-- Characters a URL-pattern match can consume (in particular, never a
square bracket). -/
def urlAllowed (c : Char) : Bool :=
  urlChar c || c.toLower = Char.toLower 'h' || c.toLower = Char.toLower 't' ||
    c.toLower = Char.toLower 'p' || c.toLower = Char.toLower 's' ||
    c.toLower = Char.toLower ':' || c.toLower = Char.toLower '/'

/-- Characters an email-pattern match can consume (never a bracket). -/
def emailAllowed (c : Char) : Bool :=
  emailLocalChar c || emailDomainChar c || emailTldChar c ||
    c.toLower = Char.toLower '@' || c.toLower = Char.toLower '.'

/-- Mandatory character of every URL match (from the literal `://`). -/
def isColonChar (c : Char) : Bool :=
  c.toLower = Char.toLower ':'

/-- Mandatory character of every email match (the `@`). -/
def isAtChar (c : Char) : Bool :=
  c.toLower = Char.toLower '@'

/-! ## Claim theorems -/

/-- C5: for every pair of strings, the `RedactionStats` returned by
`get_redaction_stats` satisfies
`total_redactions == sum(redaction_types.values())` and records
`original_length` and `redacted_length` as the lengths of the two
inputs. -/
theorem c5_stats_invariant (o r : String) :
    (getRedactionStats o r).total = ((getRedactionStats o r).types.map Prod.snd).sum ∧
    (getRedactionStats o r).origLen = o.length ∧
    (getRedactionStats o r).redLen = r.length :=
  ⟨rfl, rfl, rfl⟩

/-- C10: `redaction_types`, `total_redactions` and `redacted_length` of
`get_redaction_stats` depend only on the `redacted` argument; two calls
differing only in `original` agree on everything except
`original_length`. -/
theorem c10_stats_ignore_original (o1 o2 r : String) :
    (getRedactionStats o1 r).types = (getRedactionStats o2 r).types ∧
    (getRedactionStats o1 r).total = (getRedactionStats o2 r).total ∧
    (getRedactionStats o1 r).redLen = (getRedactionStats o2 r).redLen :=
  ⟨rfl, rfl, rfl⟩

/-- C1 counterexample: `redact_pii` is not idempotent. On
`"123456789http://x"` the first pass produces `"123456789[URL_REDACTED]"`
(the nine digits match no detector because `123456789h` has no word
boundary before `h`), but the URL placeholder's `[` creates a word
boundary after the `9`, so the SSN detector matches `123456789` on a
second pass. -/
theorem c1_cex_redact_not_idempotent :
    redactPII (redactPII ("123456789http://x")) ≠ redactPII ("123456789http://x") := by
  decide

/-- C1 amended: `redact_pii` is not idempotent in general. A placeholder
inserted by a later detector can expose a word boundary that lets an
earlier detector match on a second pass, as on `"123456789http://x"`:
the first pass redacts only the URL, the second also redacts the digits
as an SSN. (No placeholder token is itself matched by a detector; the
non-idempotence comes only from the boundary the placeholder creates.) -/
theorem c1_amended_second_pass_redacts_more :
    redactPII ("123456789http://x") = "123456789[URL_REDACTED]" ∧
    redactPII ("123456789[URL_REDACTED]") = "[SSN_REDACTED][URL_REDACTED]" := by
  constructor <;> decide

/-- C3 counterexample: with the fallback segmentation form, a text with
two qualifying sentences (count ≤ `max_sentences = 5`) is not returned
space-joined: `_simple_summarize` joins with `". "` and appends a
trailing period. -/
theorem c3_cex_fallback_join_differs :
    summarize none
        ("This is a sentence longer than twenty chars. Here is another sentence over twenty chars.") 5 ≠
      String.intercalate (" ")
        (qualifyingSimple
          ("This is a sentence longer than twenty chars. Here is another sentence over twenty chars.")) := by
  decide

/-- C3 amended: when the qualifying-sentence count is at most
`max_sentences`, the model-backed form returns the qualifying sentences
joined by single spaces in original order with no scoring applied, while
the fallback form returns its qualifying sentences joined by `". "` with
a trailing period. -/
theorem c3_amended_small_input_join (sents : List String) (text : String) (maxS : Nat)
    (hm : (qualifyingModel sents).length ≤ maxS)
    (hs : (qualifyingSimple text).length ≤ maxS) :
    summarizeModel sents maxS = String.intercalate (" ") (qualifyingModel sents) ∧
    simpleSummarize text maxS = String.intercalate (". ") (qualifyingSimple text) ++ "." := by
  constructor
  · unfold summarizeModel
    rw [if_pos hm]
  · unfold simpleSummarize
    rw [if_pos hs]

/-- C3 witness: the amended statement at a concrete two-sentence text
with `max_sentences = 5`, on both forms. -/
theorem c3_amended_witness :
    summarizeModel ["A meeting sentence longer than twenty chars.", "tiny"] 5 =
        String.intercalate (" ")
          (qualifyingModel ["A meeting sentence longer than twenty chars.", "tiny"]) ∧
    simpleSummarize ("This is a sentence longer than twenty chars. Here is another sentence over twenty chars.") 5 =
        String.intercalate (". ")
          (qualifyingSimple
            ("This is a sentence longer than twenty chars. Here is another sentence over twenty chars.")) ++ "." :=
  c3_amended_small_input_join
    ["A meeting sentence longer than twenty chars.", "tiny"]
    ("This is a sentence longer than twenty chars. Here is another sentence over twenty chars.")
    5 (by decide) (by decide)

/-- C8 counterexample: for `max_sentences = 1` and a text with two
qualifying sentences, `_simple_summarize` returns only the first sentence
with a period — the last sentence is omitted (the source appends it only
when `max_sentences > 1`), contradicting the claimed
first-middle-last shape for every value of `max_sentences`. -/
theorem c8_cex_last_sentence_omitted :
    (qualifyingSimple
        ("This is a sentence longer than twenty chars. Here is another sentence over twenty chars.")).length > 1 ∧
    simpleSummarize
        ("This is a sentence longer than twenty chars. Here is another sentence over twenty chars.") 1 ≠
      String.intercalate (". ")
          ([(qualifyingSimple
              ("This is a sentence longer than twenty chars. Here is another sentence over twenty chars.")).headD ""]
            ++ []
            ++ [(qualifyingSimple
              ("This is a sentence longer than twenty chars. Here is another sentence over twenty chars.")).getLastD ""])
        ++ "." := by
  constructor <;> decide

/-- C8 amended: when the qualifying-sentence count `n` exceeds
`max_sentences`, the fallback summary is the first sentence, then — only
when `max_sentences > 2` — the first `max_sentences - 2` sentences of the
middle third `sentences[n/3 : 2n/3]` (so at most the middle third's size,
not always exactly `max_sentences - 2`), then — only when
`max_sentences > 1` — the last sentence, joined with `". "` and a
trailing period. -/
theorem c8_amended_fallback_shape (text : String) (maxS : Nat)
    (h : maxS < (qualifyingSimple text).length) :
    simpleSummarize text maxS =
      String.intercalate (". ")
          ([(qualifyingSimple text).headD ""]
            ++ (if maxS > 2 then
                  (((qualifyingSimple text).drop ((qualifyingSimple text).length / 3)).take
                    (2 * (qualifyingSimple text).length / 3 - (qualifyingSimple text).length / 3)).take
                    (maxS - 2)
                else [])
            ++ (if maxS > 1 then [(qualifyingSimple text).getLastD ""] else []))
        ++ "." := by
  unfold simpleSummarize
  rw [if_neg (by omega)]

/-- C8 witness: the amended statement at a concrete six-sentence text
with `max_sentences = 5` (where the middle third has only two sentences,
so the middle slice is shorter than `max_sentences - 2`). -/
theorem c8_amended_witness :
    simpleSummarize
        ("Sentence number zero is long enough. Sentence number one is long enough. Sentence number two is long enough. Sentence number three is long enough. Sentence number four is long enough. Sentence number five is long enough.") 5 =
      String.intercalate (". ")
          ([(qualifyingSimple
              ("Sentence number zero is long enough. Sentence number one is long enough. Sentence number two is long enough. Sentence number three is long enough. Sentence number four is long enough. Sentence number five is long enough.")).headD ""]
            ++ (if 5 > 2 then
                  (((qualifyingSimple
                      ("Sentence number zero is long enough. Sentence number one is long enough. Sentence number two is long enough. Sentence number three is long enough. Sentence number four is long enough. Sentence number five is long enough.")).drop
                      ((qualifyingSimple
                        ("Sentence number zero is long enough. Sentence number one is long enough. Sentence number two is long enough. Sentence number three is long enough. Sentence number four is long enough. Sentence number five is long enough.")).length / 3)).take
                    (2 * (qualifyingSimple
                        ("Sentence number zero is long enough. Sentence number one is long enough. Sentence number two is long enough. Sentence number three is long enough. Sentence number four is long enough. Sentence number five is long enough.")).length / 3 -
                      (qualifyingSimple
                        ("Sentence number zero is long enough. Sentence number one is long enough. Sentence number two is long enough. Sentence number three is long enough. Sentence number four is long enough. Sentence number five is long enough.")).length / 3)).take
                    (5 - 2)
                else [])
            ++ (if 5 > 1 then
                  [(qualifyingSimple
                    ("Sentence number zero is long enough. Sentence number one is long enough. Sentence number two is long enough. Sentence number three is long enough. Sentence number four is long enough. Sentence number five is long enough.")).getLastD ""]
                else []))
        ++ "." :=
  c8_amended_fallback_shape
    ("Sentence number zero is long enough. Sentence number one is long enough. Sentence number two is long enough. Sentence number three is long enough. Sentence number four is long enough. Sentence number five is long enough.")
    5 (by decide)

/-- C2 counterexample: on the spec's example input (fallback
segmentation, any date parser — here the parser that always fails), the
single extracted `ActionItem` has `due_date = None` (no due-date pattern
matches `"by Friday"`: the `by <Month> <day>` pattern requires a day
number) and `priority = "medium"` (`"urgent"` occurs only in the second
sentence, which contains no action keyword), so no item with a non-null
due date and high priority is returned. -/
theorem c2_cex_example_fields :
    ¬ ∃ a : ActionItem,
        extractActions (fun _ => none)
            ("Alice will send the report by Friday. This is urgent.") = [a] ∧
        a.assignedTo = some ("Alice") ∧ a.dueDate ≠ none ∧ a.priority = "high" := by
  rintro ⟨a, h1, -, hdue, -⟩
  have h2 : extractActions (fun _ => none)
      ("Alice will send the report by Friday. This is urgent.") =
      [{ id := 1, description := "Alice will send the report by Friday.",
         assignedTo := some ("Alice"), dueDate := none, priority := "medium",
         status := "pending", extractedFrom := "Sentence 1" }] := by decide
  have h3 := h2.symm.trans h1
  injection h3 with h4 _
  rw [← h4] at hdue
  exact hdue rfl

/-- C2 amended: on the input
`"Alice will send the report by Friday. This is urgent."` (fallback
segmentation), `extract_actions` returns exactly one `ActionItem` with
`assigned_to = "Alice"`, but with `due_date = None` and
`priority = "medium"`, for every date parser (no due-date pattern
matches, so the parser is never consulted). -/
theorem c2_amended_example_output (parser : String → Option PDate) :
    extractActions parser ("Alice will send the report by Friday. This is urgent.") =
      [{ id := 1, description := "Alice will send the report by Friday.",
         assignedTo := some ("Alice"), dueDate := none, priority := "medium",
         status := "pending", extractedFrom := "Sentence 1" }] := by
  have hdue : extractDueDate parser ("Alice will send the report by Friday") = none := by
    unfold extractDueDate
    rw [show findDueMatch ("Alice will send the report by Friday") = none from by decide]
    rfl
  calc extractActions parser ("Alice will send the report by Friday. This is urgent.")
      = [{ id := 1, description := "Alice will send the report by Friday.",
           assignedTo := some ("Alice"),
           dueDate := extractDueDate parser ("Alice will send the report by Friday"),
           priority := "medium", status := "pending", extractedFrom := "Sentence 1" }] := rfl
    _ = [{ id := 1, description := "Alice will send the report by Friday.",
           assignedTo := some ("Alice"), dueDate := none, priority := "medium",
           status := "pending", extractedFrom := "Sentence 1" }] := by rw [hdue]

/-- C9: whenever a due-date pattern matches a sentence, the resulting
due date is never discarded: it is the ISO-8601 rendering of the parsed
date when natural-language parsing succeeds, and the raw matched phrase
verbatim when parsing fails (a `None` result or an exception, both
modelled by `parser _ = none`). -/
theorem c9_due_date_parse_or_raw (parser : String → Option PDate)
    (sentence phrase : String) (h : findDueMatch sentence = some phrase) :
    extractDueDate parser sentence ≠ none ∧
    (parser phrase = none → extractDueDate parser sentence = some phrase) ∧
    (∀ d : PDate, parser phrase = some d →
      extractDueDate parser sentence = some (isoFmt d)) := by
  unfold extractDueDate
  rw [h]
  refine ⟨by simp, ?_, ?_⟩
  · intro hp
    simp [hp]
  · intro d hp
    simp [hp]

/-- C9 witness: on a sentence matching the `deadline` pattern with a
phrase no calendar parser accepts, the raw phrase is kept verbatim. -/
theorem c9_witness_raw_phrase_kept :
    extractDueDate (fun _ => none)
        ("Bob must finish the doc, deadline: next sprint cycle") =
      some ("next sprint cycle") :=
  (c9_due_date_parse_or_raw (fun _ => none)
    ("Bob must finish the doc, deadline: next sprint cycle")
    ("next sprint cycle") (by decide)).2.1 rfl

/-- The Jaccard similarity is symmetric. -/
theorem jaccardSim_comm (d1 d2 : String) : jaccardSim d1 d2 = jaccardSim d2 d1 := by
  unfold jaccardSim
  dsimp only
  rw [Finset.union_comm, Finset.inter_comm]

/-- If either word set is empty, the similarity ratio is `0`. -/
theorem jaccardSim_eq_zero_of_empty (d1 d2 : String)
    (h : wordSet d1 = ∅ ∨ wordSet d2 = ∅) : jaccardSim d1 d2 = 0 := by
  unfold jaccardSim
  rcases h with h | h <;> rw [h] <;> simp

/-- A pair `_are_similar` rejects has Jaccard similarity strictly below
the `0.7` threshold. -/
theorem jaccardSim_lt_of_not_areSimilar (d1 d2 : String)
    (h : areSimilar d1 d2 = false) : jaccardSim d1 d2 < 7 / 10 := by
  unfold areSimilar at h
  by_cases h1 : wordSet d1 = ∅
  · rw [jaccardSim_eq_zero_of_empty d1 d2 (Or.inl h1)]; norm_num
  · by_cases h2 : wordSet d2 = ∅
    · rw [jaccardSim_eq_zero_of_empty d1 d2 (Or.inr h2)]; norm_num
    · rw [if_neg (by simp [h1, h2])] at h
      exact lt_of_not_ge (by simpa using h)

/-- The deduplication loop preserves the invariant that every kept item
was found dissimilar to every earlier-kept item. -/
theorem dedup_foldl_pairwise (l : List ActionItem) (acc : List ActionItem)
    (h : acc.Pairwise (fun x y => areSimilar y.description x.description = false)) :
    (l.foldl (fun acc a =>
        if acc.any (fun e => areSimilar a.description e.description) then acc
        else acc ++ [a]) acc).Pairwise
      (fun x y => areSimilar y.description x.description = false) := by
  induction l generalizing acc with
  | nil => exact h
  | cons a l ih =>
    simp only [List.foldl_cons]
    cases hany : acc.any (fun e => areSimilar a.description e.description) with
    | true =>
      rw [if_pos rfl]
      exact ih acc h
    | false =>
      rw [if_neg (by simp)]
      apply ih
      rw [List.pairwise_append]
      refine ⟨h, List.pairwise_singleton _ _, ?_⟩
      intro x hx y hy
      rw [List.mem_singleton] at hy
      subst hy
      have := List.any_eq_false.mp hany x hx
      simpa using this

/-- Whatever list of candidates is deduplicated, the kept items are
pairwise dissimilar in the sense of `_are_similar`. -/
theorem dedupActions_pairwise (l : List ActionItem) :
    (dedupActions l).Pairwise
      (fun x y => areSimilar y.description x.description = false) := by
  unfold dedupActions
  by_cases hl : l.length ≤ 1
  · rw [if_pos hl]
    match l, hl with
    | [], _ => exact List.Pairwise.nil
    | [a], _ => exact List.pairwise_singleton _ _
  · rw [if_neg hl]
    exact dedup_foldl_pairwise l [] List.Pairwise.nil

/-- `_deduplicate_actions` is exactly the in-order fold that drops a
candidate precisely when it is similar to some earlier-kept item. -/
theorem dedupActions_eq_foldl (l : List ActionItem) :
    dedupActions l =
      l.foldl (fun acc a =>
        if acc.any (fun e => areSimilar a.description e.description) then acc
        else acc ++ [a]) [] := by
  unfold dedupActions
  match l with
  | [] => rfl
  | [a] => rfl
  | a :: b :: l => rw [if_neg (by simp)]

/-- C4: every pair of distinct items returned by `extract_actions` has
description Jaccard similarity strictly below `0.7` (in both
orientations), and deduplication is the in-order fold that drops a later
candidate exactly when its similarity to some earlier-kept item reaches
the threshold. -/
theorem c4_pairwise_dissimilar (parser : String → Option PDate) (text : String) :
    (extractActions parser text).Pairwise
      (fun x y => jaccardSim x.description y.description < 7 / 10 ∧
        jaccardSim y.description x.description < 7 / 10) ∧
    (∀ l : List ActionItem, dedupActions l =
      l.foldl (fun acc a =>
        if acc.any (fun e => areSimilar a.description e.description) then acc
        else acc ++ [a]) []) := by
  constructor
  · unfold extractActions
    split
    · exact List.Pairwise.nil
    · refine (dedupActions_pairwise _).imp ?_
      intro a b hab
      have h1 := jaccardSim_lt_of_not_areSimilar _ _ hab
      exact ⟨(jaccardSim_comm a.description b.description) ▸ h1, h1⟩
  · exact dedupActions_eq_foldl

/-- Inserting into the stable descending sort is a permutation. -/
theorem insertDesc_perm (key : α → ℚ) (x : α) (l : List α) :
    List.Perm (insertDesc key x l) (x :: l) := by
  induction l with
  | nil => exact List.Perm.refl _
  | cons y ys ih =>
    unfold insertDesc
    by_cases h : key x < key y
    · rw [if_pos h]
      exact (ih.cons y).trans (List.Perm.swap x y ys)
    · rw [if_neg h]

/-- `pySortDesc` is a permutation of its input. -/
theorem pySortDesc_perm (key : α → ℚ) (l : List α) :
    List.Perm (pySortDesc key l) l := by
  induction l with
  | nil => exact List.Perm.refl _
  | cons x l ih =>
    exact (insertDesc_perm key x (pySortDesc key l)).trans (ih.cons x)

/-- Membership in an insertion. -/
theorem mem_insertDesc (key : α → ℚ) (x z : α) (l : List α) :
    z ∈ insertDesc key x l ↔ z = x ∨ z ∈ l := by
  rw [(insertDesc_perm key x l).mem_iff, List.mem_cons]

/-- Insertion preserves descending sortedness by key. -/
theorem insertDesc_sorted (key : α → ℚ) (x : α) (l : List α)
    (h : l.Pairwise (fun a b => key b ≤ key a)) :
    (insertDesc key x l).Pairwise (fun a b => key b ≤ key a) := by
  induction l with
  | nil => exact List.pairwise_singleton _ _
  | cons y ys ih =>
    rw [List.pairwise_cons] at h
    unfold insertDesc
    by_cases hxy : key x < key y
    · rw [if_pos hxy]
      rw [List.pairwise_cons]
      refine ⟨?_, ih h.2⟩
      intro z hz
      rcases (mem_insertDesc key x z ys).mp hz with rfl | hz
      · exact le_of_lt hxy
      · exact h.1 z hz
    · rw [if_neg hxy]
      rw [List.pairwise_cons]
      refine ⟨?_, List.pairwise_cons.mpr h⟩
      intro z hz
      rcases List.mem_cons.mp hz with rfl | hz
      · exact not_lt.mp hxy
      · exact le_trans (h.1 z hz) (not_lt.mp hxy)

/-- `pySortDesc` sorts descending by key. -/
theorem pySortDesc_sorted (key : α → ℚ) (l : List α) :
    (pySortDesc key l).Pairwise (fun a b => key b ≤ key a) := by
  induction l with
  | nil => exact List.Pairwise.nil
  | cons x l ih => exact insertDesc_sorted key x (pySortDesc key l) ih

/-- The elements at any fixed key value survive an insertion in order:
the inserted element passes only elements with strictly greater keys. -/
theorem insertDesc_filter (key : α → ℚ) (x : α) (l : List α) (q : ℚ) :
    (insertDesc key x l).filter (fun a => decide (key a = q)) =
      if key x = q then x :: l.filter (fun a => decide (key a = q))
      else l.filter (fun a => decide (key a = q)) := by
  induction l with
  | nil =>
    by_cases hx : key x = q <;> simp [insertDesc, List.filter, hx]
  | cons y ys ih =>
    unfold insertDesc
    by_cases hxy : key x < key y
    · rw [if_pos hxy, List.filter_cons]
      by_cases hy : key y = q
      · have hxq : ¬ key x = q := fun hc => absurd (hc.trans hy.symm) (ne_of_lt hxy)
        simp [hy, hxq, ih]
      · simp [hy, ih]
    · rw [if_neg hxy, List.filter_cons]
      by_cases hx : key x = q <;> simp [hx, List.filter_cons]

/-- C6 stability, sort side: `pySortDesc` keeps the input order of
elements whose keys are equal (their subsequence at any fixed key value
is unchanged). -/
theorem pySortDesc_filter (key : α → ℚ) (l : List α) (q : ℚ) :
    (pySortDesc key l).filter (fun a => decide (key a = q)) =
      l.filter (fun a => decide (key a = q)) := by
  induction l with
  | nil => rfl
  | cons x l ih =>
    show (insertDesc key x (pySortDesc key l)).filter _ = _
    rw [insertDesc_filter, List.filter_cons]
    by_cases hx : key x = q <;> simp [hx, ih]

/-- The source's float test `i < n * 0.3` agrees with the exact rational
one, which for naturals is `10 * i < 3 * n`. -/
theorem boost_condition_iff (i n : Nat) :
    ((i : ℚ) < (n : ℚ) * (3 / 10)) ↔ 10 * i < 3 * n := by
  rw [show ((n : ℚ) * (3 / 10)) = (3 * n : ℚ) / 10 by ring, lt_div_iff₀ (by norm_num)]
  constructor
  · intro h
    have h2 : ((10 * i : Nat) : ℚ) < ((3 * n : Nat) : ℚ) := by push_cast; linarith
    exact_mod_cast h2
  · intro h
    have h2 : ((10 * i : Nat) : ℚ) < ((3 * n : Nat) : ℚ) := by exact_mod_cast h
    push_cast at h2
    linarith

/-- C6: on the model-backed path with more qualifying sentences than
`max_sentences`, the summary is the space-join of the top
`max_sentences` sentences under the stable descending sort of the
scores; each sentence scores its word count, multiplied by `1.2` exactly
when its index is within the first 30% of the sequence
(`10 * i < 3 * n`); and the sort is a permutation, descending in score,
and stable with respect to input order on equal scores. -/
theorem c6_scoring_and_stable_sort (sents : List String) (maxS : Nat)
    (h : maxS < (qualifyingModel sents).length) :
    summarizeModel sents maxS =
      String.intercalate (" ")
        (((pySortDesc Prod.snd (scoreSentences (qualifyingModel sents))).take maxS).map
          Prod.fst) ∧
    scoreSentences (qualifyingModel sents) =
      (qualifyingModel sents).enum.map (fun p =>
        (p.2, if 10 * p.1 < 3 * (qualifyingModel sents).length
              then ((splitWs p.2).length : ℚ) * (6 / 5)
              else ((splitWs p.2).length : ℚ))) ∧
    (∀ l : List (String × ℚ),
      List.Perm (pySortDesc Prod.snd l) l ∧
      (pySortDesc Prod.snd l).Pairwise (fun a b => b.2 ≤ a.2) ∧
      (∀ q : ℚ, (pySortDesc Prod.snd l).filter (fun a => decide (a.2 = q)) =
        l.filter (fun a => decide (a.2 = q)))) := by
  refine ⟨?_, ?_, ?_⟩
  · unfold summarizeModel
    rw [if_neg (by omega)]
  · unfold scoreSentences
    apply List.map_congr_left
    intro p _
    dsimp only
    rw [if_congr (boost_condition_iff p.1 (qualifyingModel sents).length) rfl rfl]
  · intro l
    exact ⟨pySortDesc_perm _ l, pySortDesc_sorted _ l, fun q => pySortDesc_filter _ l q⟩

/-- C6 witness: three qualifying sentences and `max_sentences = 1`: the
summary is the space-join of the top sentence of the stable descending
sort of the scores. -/
theorem c6_witness_top_sentence :
    summarizeModel
        ["The quick brown fox jumps over the lazy dog today",
         "Second sentence is here with many words indeed really",
         "Third one is short but long enough to qualify"] 1 =
      String.intercalate (" ")
        (((pySortDesc Prod.snd
            (scoreSentences
              (qualifyingModel
                ["The quick brown fox jumps over the lazy dog today",
                 "Second sentence is here with many words indeed really",
                 "Third one is short but long enough to qualify"]))).take 1).map Prod.fst) :=
  (c6_scoring_and_stable_sort
      ["The quick brown fox jumps over the lazy dog today",
       "Second sentence is here with many words indeed really",
       "Third one is short but long enough to qualify"] 1 (by decide)).1

/-! ## Engine soundness lemmas (for C7) -/

/-- `eatLit` consumes exactly the literal's length, case-insensitively. -/
theorem eatLit_sound (l : List Char) :
    ∀ (s : List Char) (w wf : Bool) (r : List Char),
      eatLit l s w = some (r, wf) →
      l.length ≤ s.length ∧ r = s.drop l.length ∧
        List.Forall₂ (fun a c => c.toLower = a.toLower) l (s.take l.length) := by
  induction l with
  | nil =>
    intro s w wf r h
    simp only [eatLit, Option.some.injEq, Prod.mk.injEq] at h
    simp [h.1.symm]
  | cons a l ih =>
    intro s w wf r h
    match s with
    | [] => simp [eatLit] at h
    | c :: s =>
      simp only [eatLit] at h
      split at h
      · rename_i hc
        obtain ⟨h1, h2, h3⟩ := ih s (isWord c) wf r h
        refine ⟨by simpa using h1, by simpa using h2, ?_⟩
        simpa using ⟨hc, h3⟩
      · exact absurd h (by simp)

/-- Membership in the greedy candidate list. -/
theorem descRange_mem (lo m n : Nat) (h : n ∈ descRange lo m) : lo ≤ n ∧ n ≤ m := by
  unfold descRange at h
  obtain ⟨i, hi, rfl⟩ := List.mem_map.mp h
  rw [List.mem_range] at hi
  omega

/-- Characters within the maximal satisfying prefix satisfy the class. -/
theorem take_sat_of_le_takeWhile (p : Char → Bool) (s : List Char) (n : Nat)
    (h : n ≤ (s.takeWhile p).length) : ∀ c ∈ s.take n, p c = true := by
  intro c hc
  have hpre : s.take n = (s.takeWhile p).take n := by
    obtain ⟨t, ht⟩ := (List.takeWhile_prefix (p := p) (l := s))
    conv_lhs => rw [← ht]
    rw [List.take_append_of_le_length h]
  rw [hpre] at hc
  exact List.mem_takeWhile_imp (List.mem_of_mem_take hc)

/-- A `Forall₂` relation transports membership from right to left. -/
theorem forall2_mem_right {R : α → β → Prop} {l1 : List α} {l2 : List β}
    (h : List.Forall₂ R l1 l2) (c : β) (hc : c ∈ l2) : ∃ a ∈ l1, R a c := by
  induction h with
  | nil => cases hc
  | cons hR hF ih =>
    rcases List.mem_cons.mp hc with rfl | hc
    · exact ⟨_, List.mem_cons_self .., hR⟩
    · obtain ⟨a, ha, hac⟩ := ih hc
      exact ⟨a, List.mem_cons_of_mem _ ha, hac⟩

/-- A `Forall₂` relation transports membership from left to right. -/
theorem forall2_mem_left {R : α → β → Prop} {l1 : List α} {l2 : List β}
    (h : List.Forall₂ R l1 l2) (a : α) (ha : a ∈ l1) : ∃ c ∈ l2, R a c := by
  induction h with
  | nil => cases ha
  | cons hR hF ih =>
    rcases List.mem_cons.mp ha with rfl | ha
    · exact ⟨_, List.mem_cons_self .., hR⟩
    · obtain ⟨c, hc, hac⟩ := ih ha
      exact ⟨c, List.mem_cons_of_mem _ hc, hac⟩

/-- Soundness of the matcher for `ReAllowed`: a successful run consumes a
prefix of the remaining input all of whose characters satisfy `P`. -/
theorem runs_sound (P : Char → Prop) (re : Re) (hA : ReAllowed P re) :
    ∀ (st st' : RSt), st' ∈ re.runs st →
      ∃ n, st'.rest = st.rest.drop n ∧ st'.pos = st.pos + n ∧
        n ≤ st.rest.length ∧ ∀ c ∈ st.rest.take n, P c := by
  induction re with
  | lit l =>
    intro st st' hm
    simp only [Re.runs] at hm
    split at hm
    · rename_i r wf heat
      rw [List.mem_singleton] at hm
      subst hm
      obtain ⟨h1, h2, h3⟩ := eatLit_sound l st.rest st.w wf r heat
      refine ⟨l.length, by simpa using h2, rfl, h1, ?_⟩
      intro c hc
      obtain ⟨a, ha, hac⟩ := forall2_mem_right h3 c hc
      exact hA a ha c hac
    · cases hm
  | cls p lo hi =>
    intro st st' hm
    simp only [Re.runs] at hm
    split at hm
    · obtain ⟨n, hn, rfl⟩ := List.mem_map.mp hm
      obtain ⟨hlo, hle⟩ := descRange_mem lo _ n hn
      have hrun : n ≤ (st.rest.takeWhile p).length := by
        unfold clsMaxRun at hle
        match hi with
        | none => exact hle
        | some k => simp at hle; omega
      refine ⟨n, rfl, rfl, le_trans hrun (by
        simpa using List.IsPrefix.length_le (List.takeWhile_prefix (p := p))), ?_⟩
      intro c hc
      exact hA c (take_sat_of_le_takeWhile p st.rest n hrun c hc)
    · cases hm
  | wb =>
    intro st st' hm
    simp only [Re.runs] at hm
    split at hm
    · rw [List.mem_singleton] at hm
      subst hm
      exact ⟨0, by simp, by simp, by simp, by simp⟩
    · cases hm
  | opt r ih =>
    intro st st' hm
    simp only [Re.runs] at hm
    rcases List.mem_append.mp hm with hm | hm
    · exact ih hA st st' hm
    · rw [List.mem_singleton] at hm
      subst hm
      exact ⟨0, by simp, by simp, by simp, by simp⟩
  | alt a b iha ihb =>
    intro st st' hm
    simp only [Re.runs] at hm
    rcases List.mem_append.mp hm with hm | hm
    · exact iha hA.1 st st' hm
    · exact ihb hA.2 st st' hm
  | seq a b iha ihb =>
    intro st st' hm
    simp only [Re.runs] at hm
    obtain ⟨mid, hmid, hst'⟩ := List.mem_flatMap.mp hm
    obtain ⟨n1, hr1, hp1, hl1, hc1⟩ := iha hA.1 st mid hmid
    obtain ⟨n2, hr2, hp2, hl2, hc2⟩ := ihb hA.2 mid st' hst'
    refine ⟨n1 + n2, ?_, by omega, ?_, ?_⟩
    · rw [hr2, hr1, List.drop_drop]
    · rw [hr1, List.length_drop] at hl2
      omega
    · intro c hc
      rw [List.take_add] at hc
      rcases List.mem_append.mp hc with hc | hc
      · exact hc1 c hc
      · rw [← hr1] at hc
        exact hc2 c hc
  | grp r ih =>
    intro st st' hm
    simp only [Re.runs] at hm
    obtain ⟨mid, hmid, hst'⟩ := List.mem_map.mp hm
    obtain ⟨n, h1, h2, h3, h4⟩ := ih hA st mid hmid
    exact ⟨n, by rw [← hst']; exact h1, by rw [← hst']; exact h2, h3, h4⟩

/-- Soundness of the matcher for `ReNeeds`: a successful run consumes
some character satisfying `Q`. -/
theorem runs_needs (Q : Char → Prop) (re : Re) (hN : ReNeeds Q re) :
    ∀ (st st' : RSt), st' ∈ re.runs st →
      ∃ n, st'.rest = st.rest.drop n ∧ st'.pos = st.pos + n ∧
        n ≤ st.rest.length ∧ ∃ c ∈ st.rest.take n, Q c := by
  induction re with
  | lit l =>
    intro st st' hm
    simp only [Re.runs] at hm
    split at hm
    · rename_i r wf heat
      rw [List.mem_singleton] at hm
      subst hm
      obtain ⟨h1, h2, h3⟩ := eatLit_sound l st.rest st.w wf r heat
      obtain ⟨a, ha, haQ⟩ := hN
      obtain ⟨c, hc, hac⟩ := forall2_mem_left h3 a ha
      exact ⟨l.length, by simpa using h2, rfl, h1, c, hc, haQ c hac⟩
    · cases hm
  | cls p lo hi =>
    intro st st' hm
    simp only [Re.runs] at hm
    split at hm
    · rename_i hcond
      obtain ⟨n, hn, rfl⟩ := List.mem_map.mp hm
      obtain ⟨hlo, hle⟩ := descRange_mem lo _ n hn
      have hrun : n ≤ (st.rest.takeWhile p).length := by
        unfold clsMaxRun at hle
        match hi with
        | none => exact hle
        | some k => simp at hle; omega
      have hlen : n ≤ st.rest.length :=
        le_trans hrun (by
          simpa using List.IsPrefix.length_le (List.takeWhile_prefix (p := p)))
      have h1 : 1 ≤ n := le_trans hN.1 hlo
      have htk : (st.rest.take n).length = n := by
        rw [List.length_take]
        omega
      match hne : st.rest.take n with
      | [] => rw [hne] at htk; simp at htk; omega
      | c :: cs =>
        refine ⟨n, rfl, rfl, hlen, c, by rw [hne]; exact List.mem_cons_self .., ?_⟩
        have := take_sat_of_le_takeWhile p st.rest n hrun c (by rw [hne]; exact List.mem_cons_self ..)
        exact hN.2 c this
    · cases hm
  | wb =>
    intro st st' hm
    cases hN
  | opt r ih =>
    intro st st' hm
    cases hN
  | alt a b iha ihb =>
    intro st st' hm
    simp only [Re.runs] at hm
    rcases List.mem_append.mp hm with hm | hm
    · exact iha hN.1 st st' hm
    · exact ihb hN.2 st st' hm
  | seq a b iha ihb =>
    intro st st' hm
    simp only [Re.runs] at hm
    obtain ⟨mid, hmid, hst'⟩ := List.mem_flatMap.mp hm
    rcases hN with hN | hN
    · obtain ⟨n1, hr1, hp1, hl1, c, hc, hQ⟩ := iha hN st mid hmid
      obtain ⟨n2, hr2, hp2, hl2, _⟩ :=
        runs_sound (fun _ => True) b (by
          clear * -
          induction b with
          | lit l => intro a _ c _; trivial
          | cls p lo hi => intro c _; trivial
          | wb => trivial
          | opt r ih => exact ih
          | alt x y ihx ihy => exact ⟨ihx, ihy⟩
          | seq x y ihx ihy => exact ⟨ihx, ihy⟩
          | grp r ih => exact ih) mid st' hst'
      refine ⟨n1 + n2, ?_, by omega, ?_, c, ?_, hQ⟩
      · rw [hr2, hr1, List.drop_drop]
      · rw [hr1, List.length_drop] at hl2
        omega
      · rw [List.take_add]
        exact List.mem_append_left _ hc
    · obtain ⟨n1, hr1, hp1, hl1, _⟩ :=
        runs_sound (fun _ => True) a (by
          clear * -
          induction a with
          | lit l => intro x _ c _; trivial
          | cls p lo hi => intro c _; trivial
          | wb => trivial
          | opt r ih => exact ih
          | alt x y ihx ihy => exact ⟨ihx, ihy⟩
          | seq x y ihx ihy => exact ⟨ihx, ihy⟩
          | grp r ih => exact ih) st mid hmid
      obtain ⟨n2, hr2, hp2, hl2, c, hc, hQ⟩ := ihb hN mid st' hst'
      refine ⟨n1 + n2, ?_, by omega, ?_, c, ?_, hQ⟩
      · rw [hr2, hr1, List.drop_drop]
      · rw [hr1, List.length_drop] at hl2
        omega
      · rw [List.take_add]
        rw [hr1] at hc
        exact List.mem_append_right _ hc
  | grp r ih =>
    intro st st' hm
    simp only [Re.runs] at hm
    obtain ⟨mid, hmid, hst'⟩ := List.mem_map.mp hm
    obtain ⟨n, h1, h2, h3, h4⟩ := ih hN st mid hmid
    exact ⟨n, by rw [← hst']; exact h1, by rw [← hst']; exact h2, h3, h4⟩

/-- `Option.head?` membership. -/
theorem head?_mem {l : List α} {a : α} (h : l.head? = some a) : a ∈ l := by
  cases l with
  | nil => cases h
  | cons x xs =>
    rw [List.head?_cons, Option.some.injEq] at h
    subst h
    exact List.mem_cons_self ..

/-- Every span the scanner reports comes from a successful run of the
pattern at the span's start position. -/
theorem scanSpans_mem (re : Re) :
    ∀ (f : Nat) (s : List Char) (w : Bool) (pos a L : Nat),
      (a, L) ∈ scanSpans re f s w pos →
      ∃ k w', a = pos + k ∧
        ∃ st' ∈ re.runs ⟨s.drop k, 0, w', []⟩, st'.pos = L := by
  intro f
  induction f with
  | zero =>
    intro s w pos a L h
    simp [scanSpans] at h
  | succ f ih =>
    intro s w pos a L h
    match s with
    | [] =>
      simp only [scanSpans] at h
      split at h
      · rename_i st' hfm
        rw [List.mem_singleton, Prod.mk.injEq] at h
        obtain ⟨rfl, rfl⟩ := h
        exact ⟨0, w, by omega, st', head?_mem hfm, rfl⟩
      · cases h
    | c :: s' =>
      simp only [scanSpans] at h
      split at h
      · rename_i st' hfm
        split at h
        · rename_i hpos0
          rcases List.mem_cons.mp h with heq | htail
          · rw [Prod.mk.injEq] at heq
            obtain ⟨rfl, rfl⟩ := heq
            exact ⟨0, w, by omega, st', head?_mem hfm, hpos0⟩
          · obtain ⟨k, w', hk, st'', hm, hp⟩ := ih s' (isWord c) (pos + 1) a L htail
            exact ⟨k + 1, w', by omega, st'', by simpa using hm, hp⟩
        · rename_i n hposn
          rcases List.mem_cons.mp h with heq | htail
          · rw [Prod.mk.injEq] at heq
            obtain ⟨rfl, rfl⟩ := heq
            exact ⟨0, w, by omega, st', head?_mem hfm, hposn⟩
          · obtain ⟨k, w', hk, st'', hm, hp⟩ :=
              ih ((c :: s').drop (n + 1)) st'.w (pos + n + 1) a L htail
            rw [List.drop_drop] at hm
            exact ⟨n + 1 + k, w', by omega, st'', hm, hp⟩
      · obtain ⟨k, w', hk, st'', hm, hp⟩ := ih s' (isWord c) (pos + 1) a L h
        exact ⟨k + 1, w', by omega, st'', by simpa using hm, hp⟩

/-- `findSpans` spans come from runs at their start offset. -/
theorem findSpans_mem (re : Re) (str : String) (a L : Nat)
    (h : (a, L) ∈ findSpans re str) :
    ∃ w', ∃ st' ∈ re.runs ⟨str.data.drop a, 0, w', []⟩, st'.pos = L := by
  obtain ⟨k, w', hk, st', hm, hp⟩ :=
    scanSpans_mem re (str.data.length + 1) str.data false 0 a L h
  have : a = k := by omega
  subst this
  exact ⟨w', st', hm, hp⟩

/-- All characters inside a reported span satisfy the pattern's allowed
character predicate, and the span stays inside the string. -/
theorem findSpans_chars (P : Char → Prop) (re : Re) (hA : ReAllowed P re)
    (str : String) (a L : Nat) (h : (a, L) ∈ findSpans re str) :
    ∀ c ∈ (str.data.drop a).take L, P c := by
  obtain ⟨w', st', hm, hp⟩ := findSpans_mem re str a L h
  obtain ⟨n, hr, hpn, hlen, hchars⟩ := runs_sound P re hA _ st' hm
  have hnL : n = L := by
    simp only at hpn
    omega
  rw [← hnL]
  exact hchars

/-- A reported span is nonempty and contains a character satisfying the
pattern's required character predicate. -/
theorem findSpans_needs (Q : Char → Prop) (re : Re) (hN : ReNeeds Q re)
    (str : String) (a L : Nat) (h : (a, L) ∈ findSpans re str) :
    1 ≤ L ∧ ∃ c ∈ (str.data.drop a).take L, Q c := by
  obtain ⟨w', st', hm, hp⟩ := findSpans_mem re str a L h
  obtain ⟨n, hr, hpn, hlen, c, hc, hQ⟩ := runs_needs Q re hN _ st' hm
  have hnL : n = L := by
    simp only at hpn
    omega
  have hn1 : 1 ≤ n := by
    rcases Nat.eq_zero_or_pos n with h0 | h0
    · rw [h0] at hc
      simp at hc
    · exact h0
  refine ⟨by omega, ?_⟩
  rw [← hnL]
  exact ⟨c, hc, hQ⟩

/-- Extract the absolute index of a member of a take-drop window. -/
theorem mem_take_drop_index {l : List α} {a L : Nat} {x : α}
    (h : x ∈ (l.drop a).take L) :
    ∃ i, a ≤ i ∧ i < a + L ∧ ∃ hlt : i < l.length, l.get ⟨i, hlt⟩ = x := by
  obtain ⟨j, hj⟩ := List.mem_iff_getElem?.mp h
  have hjL : j < L := by
    by_contra hno
    rw [List.getElem?_take_eq_none (le_of_not_lt hno)] at hj
    cases hj
  rw [List.getElem?_take_of_lt hjL, List.getElem?_drop] at hj
  obtain ⟨hlt, heq⟩ := List.getElem?_eq_some_iff.mp hj
  exact ⟨a + j, by omega, by omega, hlt, heq⟩

/-- Conversely, the element at an absolute index inside the window is a
member of the window. -/
theorem get_mem_take_drop {l : List α} {a L i : Nat} (h1 : a ≤ i)
    (h2 : i < a + L) (h3 : i < l.length) :
    l.get ⟨i, h3⟩ ∈ (l.drop a).take L := by
  rw [List.mem_iff_getElem?]
  refine ⟨i - a, ?_⟩
  rw [List.getElem?_take_of_lt (by omega), List.getElem?_drop,
    show a + (i - a) = i by omega]
  simp

/-- An occurrence of a token covers characters of the string. -/
theorem occursAt_get {t s : List Char} {q : Nat} (hocc : occursAt t s q)
    {i : Nat} (h1 : q ≤ i) (h2 : i < q + t.length) (h3 : i < s.length) :
    s.get ⟨i, h3⟩ ∈ t := by
  have := get_mem_take_drop h1 h2 h3
  rwa [hocc] at this

/-- An occurrence of a nonempty token lies inside the string. -/
theorem occursAt_length {t s : List Char} {q : Nat} (ht : 0 < t.length)
    (hocc : occursAt t s q) : q + t.length ≤ s.length := by
  have := congrArg List.length hocc
  simp only [List.length_take, List.length_drop] at this
  omega

/-- The string character at offset `j` of an occurrence is the token's
character there. -/
theorem occursAt_getElem? {t s : List Char} {q : Nat} (hocc : occursAt t s q)
    {j : Nat} (hj : j < t.length) : s[q + j]? = t[j]? := by
  conv_rhs => rw [← hocc]
  rw [List.getElem?_take_of_lt hj, List.getElem?_drop]

/-- Disjointness for detectors whose allowed characters never occur in
the token: any reported span of such a detector is disjoint from any
occurrence of the token. -/
theorem span_disjoint_basic (re : Re) (P Q : Char → Bool)
    (hA : ReAllowed (fun c => P c = true) re)
    (hN : ReNeeds (fun c => Q c = true) re)
    (t : List Char) (ht0 : 0 < t.length) (hT : ∀ x ∈ t, P x = false)
    (str : String) (q a L : Nat)
    (hocc : occursAt t str.data q) (hsp : (a, L) ∈ findSpans re str) :
    a + L ≤ q ∨ q + t.length ≤ a := by
  by_contra hcon
  push_neg at hcon
  obtain ⟨h1, h2⟩ := hcon
  have hchars := findSpans_chars _ re hA str a L hsp
  obtain ⟨hL1, -⟩ := findSpans_needs _ re hN str a L hsp
  have htb : q + t.length ≤ str.data.length := occursAt_length ht0 hocc
  have hiL : max a q < a + L := max_lt (by omega) h1
  have hiT : max a q < q + t.length := max_lt h2 (by omega)
  have hilen : max a q < str.data.length := by omega
  have hx1 := get_mem_take_drop (l := str.data) (a := a) (L := L)
    (le_max_left a q) hiL hilen
  have hx2 := occursAt_get hocc (le_max_right a q) hiT hilen
  have := hchars _ hx1
  rw [hT _ hx2] at this
  cases this

/-- Disjointness for the URL and email detectors: their matches contain
no square bracket but must contain a required character (`:`
respectively `@`) that the token lacks, so a span overlapping the
bracket-delimited token would have to sit strictly inside it and exhibit
the required character there — impossible. -/
theorem span_disjoint_inner (re : Re) (P Q : Char → Bool)
    (hA : ReAllowed (fun c => P c = true) re)
    (hN : ReNeeds (fun c => Q c = true) re)
    (t : List Char) (ht0 : 0 < t.length)
    (hhead : t[0]? = some '[') (hlast : t[t.length - 1]? = some ']')
    (hPb : P '[' = false ∧ P ']' = false)
    (hTQ : ∀ x ∈ t, Q x = false)
    (str : String) (q a L : Nat)
    (hocc : occursAt t str.data q) (hsp : (a, L) ∈ findSpans re str) :
    a + L ≤ q ∨ q + t.length ≤ a := by
  by_contra hcon
  push_neg at hcon
  obtain ⟨h1, h2⟩ := hcon
  have hchars := findSpans_chars _ re hA str a L hsp
  obtain ⟨hL1, c, hc, hQc⟩ := findSpans_needs _ re hN str a L hsp
  have htb : q + t.length ≤ str.data.length := occursAt_length ht0 hocc
  have hqlen : q < str.data.length := by omega
  have hq_not : ¬ a ≤ q := by
    intro haq
    have hxm := get_mem_take_drop (l := str.data) (a := a) (L := L) haq
      (by omega) hqlen
    have hval : str.data.get ⟨q, hqlen⟩ = '[' := by
      have h0 := occursAt_getElem? hocc ht0
      rw [hhead, show q + 0 = q from rfl, List.getElem?_eq_getElem hqlen,
        Option.some.injEq] at h0
      rw [List.get_eq_getElem]
      exact h0
    have := hchars _ hxm
    rw [hval, hPb.1] at this
    cases this
  have haq : q < a := by omega
  have hlast_not : a + L ≤ q + t.length - 1 := by
    by_contra hno
    push_neg at hno
    have hjlen : q + t.length - 1 < str.data.length := by omega
    have hxm := get_mem_take_drop (l := str.data) (a := a) (L := L)
      (i := q + t.length - 1) (by omega) (by omega) hjlen
    have hval : str.data.get ⟨q + t.length - 1, hjlen⟩ = ']' := by
      have h0 := occursAt_getElem? hocc (show t.length - 1 < t.length by omega)
      rw [hlast, show q + (t.length - 1) = q + t.length - 1 by omega,
        List.getElem?_eq_getElem hjlen, Option.some.injEq] at h0
      rw [List.get_eq_getElem]
      exact h0
    have := hchars _ hxm
    rw [hval, hPb.2] at this
    cases this
  obtain ⟨i, hia, hiL, hlt, hval⟩ := mem_take_drop_index hc
  have hcT : c ∈ t := by
    have := occursAt_get hocc (i := i) (by omega) (by omega) hlt
    rwa [hval] at this
  rw [hTQ c hcT] at hQc
  cases hQc

/-! ## Character-set instances for the seven detectors -/

/-- Every character a phone match consumes is a digit or separator. -/
theorem reAllowed_phone : ReAllowed (fun c => phoneAllowed c = true) phoneRe := by
  simp only [phoneRe, ReAllowed, clsN, optC, chr]
  repeat' apply And.intro
  all_goals first
    | trivial
    | (intro a ha c hc
       simp only [List.mem_singleton] at ha
       subst ha
       simp [phoneAllowed, hc]
       done)
    | (intro a ha c hc
       fin_cases ha <;> (simp [phoneAllowed, hc]; done))
    | (intro c hcls
       simp [phoneAllowed, hcls]
       done)

/-- Every character an SSN match consumes is a digit or hyphen. -/
theorem reAllowed_ssn : ReAllowed (fun c => ssnAllowed c = true) ssnRe := by
  simp only [ssnRe, ReAllowed, clsN, optC, chr]
  repeat' apply And.intro
  all_goals first
    | trivial
    | (intro a ha c hc
       simp only [List.mem_singleton] at ha
       subst ha
       simp [ssnAllowed, hc]
       done)
    | (intro a ha c hc
       fin_cases ha <;> (simp [ssnAllowed, hc]; done))
    | (intro c hcls
       simp [ssnAllowed, hcls]
       done)

/-- Every character a credit-card match consumes is a digit, hyphen or
whitespace. -/
theorem reAllowed_cc : ReAllowed (fun c => ccAllowed c = true) creditCardRe := by
  simp only [creditCardRe, ReAllowed, clsN, optC, chr]
  repeat' apply And.intro
  all_goals first
    | trivial
    | (intro a ha c hc
       simp only [List.mem_singleton] at ha
       subst ha
       simp [ccAllowed, hc]
       done)
    | (intro a ha c hc
       fin_cases ha <;> (simp [ccAllowed, hc]; done))
    | (intro c hcls
       simp [ccAllowed, hcls]
       done)

/-- Every character an IP match consumes is a digit or dot. -/
theorem reAllowed_ip : ReAllowed (fun c => ipAllowed c = true) ipRe := by
  simp only [ipRe, ReAllowed, clsN, optC, chr]
  repeat' apply And.intro
  all_goals first
    | trivial
    | (intro a ha c hc
       simp only [List.mem_singleton] at ha
       subst ha
       simp [ipAllowed, hc]
       done)
    | (intro a ha c hc
       fin_cases ha <;> (simp [ipAllowed, hc]; done))
    | (intro c hcls
       simp [ipAllowed, hcls]
       done)

/-- Every character a zipcode match consumes is a digit or hyphen. -/
theorem reAllowed_zip : ReAllowed (fun c => zipAllowed c = true) zipcodeRe := by
  simp only [zipcodeRe, ReAllowed, clsN, optC, chr]
  repeat' apply And.intro
  all_goals first
    | trivial
    | (intro a ha c hc
       simp only [List.mem_singleton] at ha
       subst ha
       simp [zipAllowed, hc]
       done)
    | (intro a ha c hc
       fin_cases ha <;> (simp [zipAllowed, hc]; done))
    | (intro c hcls
       simp [zipAllowed, hcls]
       done)

/-- Every character a URL match consumes is allowed (no brackets). -/
theorem reAllowed_url : ReAllowed (fun c => urlAllowed c = true) urlRe := by
  simp only [urlRe, ReAllowed, clsN, optC, chr, strLit]
  repeat' apply And.intro
  all_goals first
    | trivial
    | (intro a ha c hc
       simp only [List.mem_singleton] at ha
       subst ha
       simp [urlAllowed, hc]
       done)
    | (intro a ha c hc
       fin_cases ha <;> (simp [urlAllowed, hc]; done))
    | (intro c hcls
       simp [urlAllowed, hcls]
       done)

/-- Every character an email match consumes is allowed (no brackets). -/
theorem reAllowed_email : ReAllowed (fun c => emailAllowed c = true) emailRe := by
  simp only [emailRe, ReAllowed, clsN, optC, chr, strLit]
  repeat' apply And.intro
  all_goals first
    | trivial
    | (intro a ha c hc
       simp only [List.mem_singleton] at ha
       subst ha
       simp [emailAllowed, hc]
       done)
    | (intro a ha c hc
       fin_cases ha <;> (simp [emailAllowed, hc]; done))
    | (intro c hcls
       simp [emailAllowed, hcls]
       done)

/-- Every phone match contains a digit. -/
theorem reNeeds_phone : ReNeeds (fun c => Char.isDigit c = true) phoneRe :=
  Or.inr (Or.inr (Or.inr (Or.inl ⟨by omega, fun c h => h⟩)))

/-- Every SSN match contains a digit. -/
theorem reNeeds_ssn : ReNeeds (fun c => Char.isDigit c = true) ssnRe :=
  Or.inr (Or.inl ⟨by omega, fun c h => h⟩)

/-- Every credit-card match contains a digit. -/
theorem reNeeds_cc : ReNeeds (fun c => Char.isDigit c = true) creditCardRe :=
  Or.inr (Or.inl (Or.inl ⟨by omega, fun c h => h⟩))

/-- Every IP match contains a digit. -/
theorem reNeeds_ip : ReNeeds (fun c => Char.isDigit c = true) ipRe :=
  Or.inr (Or.inl (Or.inl ⟨by omega, fun c h => h⟩))

/-- Every zipcode match contains a digit. -/
theorem reNeeds_zip : ReNeeds (fun c => Char.isDigit c = true) zipcodeRe :=
  Or.inr (Or.inl ⟨by omega, fun c h => h⟩)

/-- Every URL match contains a colon (from the literal `://`). -/
theorem reNeeds_url : ReNeeds (fun c => isColonChar c = true) urlRe :=
  Or.inr (Or.inr (Or.inl ⟨':', by decide, fun c h => by
    simpa [isColonChar] using h⟩))

/-- Every email match contains an `@`. -/
theorem reNeeds_email : ReNeeds (fun c => isAtChar c = true) emailRe :=
  Or.inr (Or.inr (Or.inl ⟨'@', by decide, fun c h => by
    simpa [isAtChar] using h⟩))

/-- C7: the pattern phase applies the seven detectors in the fixed order
email, phone, ssn, credit_card, ip_address, url, zipcode, each replacing
every match in the progressively-redacted string; and no occurrence of
any detector's placeholder token overlaps any span a detector would
replace — in particular a placeholder inserted by an earlier detector is
never matched (in whole or in part) by any later detector in the same
pass. -/
theorem c7_detector_order_and_placeholder_immunity :
    (∀ s : String, ¬(s = "" ∨ pyStrip s = "") →
      redactPII s =
        subPattern zipcodeRe (placeholder ("zipcode"))
          (subPattern urlRe (placeholder ("url"))
            (subPattern ipRe (placeholder ("ip_address"))
              (subPattern creditCardRe (placeholder ("credit_card"))
                (subPattern ssnRe (placeholder ("ssn"))
                  (subPattern phoneRe (placeholder ("phone"))
                    (subPattern emailRe (placeholder ("email")) s))))))) ∧
    (∀ p, p ∈ piiPatterns → ∀ nm, nm ∈ piiPatterns.map Prod.fst →
      ∀ (s : String) (q a L : Nat),
        occursAt (placeholder nm).data s.data q →
        (a, L) ∈ findSpans p.2 s →
        a + L ≤ q ∨ q + (placeholder nm).data.length ≤ a) := by
  constructor
  · intro s hs
    unfold redactPII
    rw [if_neg (by simpa using hs)]
    rfl
  · have F1 : ∀ nm ∈ piiPatterns.map Prod.fst,
        0 < (placeholder nm).data.length := by decide
    have F3 : ∀ nm ∈ piiPatterns.map Prod.fst,
        (placeholder nm).data[0]? = some '[' ∧
        (placeholder nm).data[(placeholder nm).data.length - 1]? = some ']' := by
      decide
    have Fphone : ∀ nm ∈ piiPatterns.map Prod.fst,
        ∀ x ∈ (placeholder nm).data, phoneAllowed x = false := by decide
    have Fssn : ∀ nm ∈ piiPatterns.map Prod.fst,
        ∀ x ∈ (placeholder nm).data, ssnAllowed x = false := by decide
    have Fcc : ∀ nm ∈ piiPatterns.map Prod.fst,
        ∀ x ∈ (placeholder nm).data, ccAllowed x = false := by decide
    have Fip : ∀ nm ∈ piiPatterns.map Prod.fst,
        ∀ x ∈ (placeholder nm).data, ipAllowed x = false := by decide
    have Fzip : ∀ nm ∈ piiPatterns.map Prod.fst,
        ∀ x ∈ (placeholder nm).data, zipAllowed x = false := by decide
    have Furl : ∀ nm ∈ piiPatterns.map Prod.fst,
        ∀ x ∈ (placeholder nm).data, isColonChar x = false := by decide
    have Femail : ∀ nm ∈ piiPatterns.map Prod.fst,
        ∀ x ∈ (placeholder nm).data, isAtChar x = false := by decide
    intro p hp nm hnm s q a L hocc hsp
    simp only [piiPatterns, List.mem_cons, List.not_mem_nil, or_false] at hp
    rcases hp with rfl | rfl | rfl | rfl | rfl | rfl | rfl
    · exact span_disjoint_inner emailRe emailAllowed isAtChar reAllowed_email
        reNeeds_email _ (F1 nm hnm) (F3 nm hnm).1 (F3 nm hnm).2 (by decide)
        (Femail nm hnm) s q a L hocc hsp
    · exact span_disjoint_basic phoneRe phoneAllowed Char.isDigit reAllowed_phone
        reNeeds_phone _ (F1 nm hnm) (Fphone nm hnm) s q a L hocc hsp
    · exact span_disjoint_basic ssnRe ssnAllowed Char.isDigit reAllowed_ssn
        reNeeds_ssn _ (F1 nm hnm) (Fssn nm hnm) s q a L hocc hsp
    · exact span_disjoint_basic creditCardRe ccAllowed Char.isDigit reAllowed_cc
        reNeeds_cc _ (F1 nm hnm) (Fcc nm hnm) s q a L hocc hsp
    · exact span_disjoint_basic ipRe ipAllowed Char.isDigit reAllowed_ip
        reNeeds_ip _ (F1 nm hnm) (Fip nm hnm) s q a L hocc hsp
    · exact span_disjoint_inner urlRe urlAllowed isColonChar reAllowed_url
        reNeeds_url _ (F1 nm hnm) (F3 nm hnm).1 (F3 nm hnm).2 (by decide)
        (Furl nm hnm) s q a L hocc hsp
    · exact span_disjoint_basic zipcodeRe zipAllowed Char.isDigit reAllowed_zip
        reNeeds_zip _ (F1 nm hnm) (Fzip nm hnm) s q a L hocc hsp

/-- C7 witness: the order equation on a concrete nonblank string, and
disjointness of the zipcode span `(17, 5)` of
`"[EMAIL_REDACTED] 90210"` from the email placeholder occurrence at
offset `0`. -/
theorem c7_witness_concrete :
    redactPII ("a@b.co 90210") =
      subPattern zipcodeRe (placeholder ("zipcode"))
        (subPattern urlRe (placeholder ("url"))
          (subPattern ipRe (placeholder ("ip_address"))
            (subPattern creditCardRe (placeholder ("credit_card"))
              (subPattern ssnRe (placeholder ("ssn"))
                (subPattern phoneRe (placeholder ("phone"))
                  (subPattern emailRe (placeholder ("email")) ("a@b.co 90210"))))))) ∧
    (17 + 5 ≤ 0 ∨ 0 + (placeholder ("email")).data.length ≤ 17) :=
  ⟨c7_detector_order_and_placeholder_immunity.1 ("a@b.co 90210") (by decide),
   c7_detector_order_and_placeholder_immunity.2 ("zipcode", zipcodeRe)
     (by simp [piiPatterns]) ("email") (by decide)
     ("[EMAIL_REDACTED] 90210") 0 17 5 (by decide) (by decide)⟩

end TalkVault
